import Mathlib

/-!
Verification of the narrative-canvas widget (`src/main.js`).

Text is modelled as `List Char` (JS strings); JS numbers are modelled as
`Option ℚ` with `none` playing the role of `NaN`; fallible operations
return `Except` or `Option`.  Each definition in this file is a direct
shallow embedding of the corresponding JavaScript function, translated
from the source.
-/

set_option maxHeartbeats 1000000

/-- JS strings, modelled as lists of characters. -/
abbrev JStr := List Char

/-- The JavaScript whitespace class: the characters matched by `\s`, skipped
by `String.prototype.trim` and by `parseInt` (WhiteSpace ∪ LineTerminator). -/
def jsWs (c : Char) : Bool :=
  let n := c.toNat
  (9 ≤ n && n ≤ 13) || n == 32 || n == 160 || n == 5760 ||
  (8192 ≤ n && n ≤ 8202) || n == 8232 || n == 8233 || n == 8239 ||
  n == 8287 || n == 12288 || n == 65279

/-- Model of `String.prototype.trim`: strip JS whitespace from both ends. -/
def jsTrim (l : JStr) : JStr :=
  ((l.dropWhile jsWs).reverse.dropWhile jsWs).reverse

/-- Model of `Array.prototype.join(sep)`. -/
def joinSep (sep : JStr) : List JStr → JStr
  | [] => []
  | [x] => x
  | x :: y :: rest => x ++ sep ++ joinSep sep (y :: rest)

/-! Decimal strings: `parseInt` and `String(n)`. -/
/-- A decimal digit character. -/
def isDigitCh (c : Char) : Bool := 48 ≤ c.toNat && c.toNat ≤ 57

/-- Numeric value of a digit character. -/
def digitVal (c : Char) : Nat := c.toNat - 48

/-- The character of a decimal digit. -/
def digitCh (d : Nat) : Char := Char.ofNat (48 + d)

/-- The digit scan of `parseInt`: the maximal leading digit run, `none` when the
run is empty (in which case `parseInt` yields `NaN`). -/
def parseDigitsNat (l : JStr) : Option Nat :=
  let run := l.takeWhile isDigitCh
  if run.isEmpty then none
  else some (run.foldl (fun a c => a * 10 + digitVal c) 0)

/-- Sign handling of `parseInt` after whitespace has been skipped. -/
def jsParseIntCore : JStr → Option Int
  | [] => none
  | c :: r =>
    if c = '-' then (parseDigitsNat r).map (fun k => -(Int.ofNat k))
    else if c = '+' then (parseDigitsNat r).map Int.ofNat
    else (parseDigitsNat (c :: r)).map Int.ofNat

/-- Model of `parseInt(s, 10)` (src/main.js:1333, 1897): skip leading whitespace, an
optional sign, then a maximal digit run; `none` models `NaN`. -/
def jsParseInt (s : JStr) : Option Int :=
  jsParseIntCore (s.dropWhile jsWs)

/-- Decimal digit characters of a natural number, most significant first. -/
def natToChars (n : Nat) : JStr :=
  if n = 0 then [('0')] else ((Nat.digits 10 n).map digitCh).reverse

/-- JS `String(n)` for an integer-valued number (no exponent notation, which
JS only uses at magnitudes ≥ 1e21, beyond the safe-integer range). -/
def jsIntToString (n : Int) : JStr :=
  if n < 0 then '-' :: natToChars n.natAbs else natToChars n.toNat

/-! Lookahead split and batch grouping. -/
/-- JS `text.split(re)` where `re` is a zero-width lookahead: the string is
cut before every position whose suffix matches `p`, except a match at the
start of the current segment (in particular at position 0), which the JS
split algorithm skips because it would not advance.  `acc` is the current
segment, reversed. -/
def splitAux (p : List Char → Bool) : List Char → List Char → List (List Char)
  | [], acc => [acc.reverse]
  | c :: rest, acc =>
    if !acc.isEmpty && p (c :: rest) then acc.reverse :: splitAux p rest [c]
    else splitAux p rest (c :: acc)

/-- Model of `text.split(lookahead)`. -/
def lookaheadSplit (p : List Char → Bool) (text : List Char) : List (List Char) :=
  splitAux p text []

/-- The number of positions of `text` whose suffix matches `p` (the number
of occurrences of the lookahead pattern). -/
def countMatchP (p : List Char → Bool) : List Char → Nat
  | [] => 0
  | c :: rest => (if p (c :: rest) then 1 else 0) + countMatchP p rest

/-- Batches of at most `n` consecutive elements, as built by the
`for (i = 0; i < len; i += chunkSize) push(slice(i, i + chunkSize))` loops
(src/main.js:1360-1363, 2164-2167).  A JS loop with `chunkSize = 0` would
not terminate; every caller clamps or defaults the size to at least 1,
which `max 1` makes explicit. -/
def groupBySizeFuel {α : Type} (m : Nat) : Nat → List α → List (List α)
  | _, [] => []
  | 0, _ :: _ => []
  | fuel + 1, x :: xs => ((x :: xs).take m) :: groupBySizeFuel m fuel ((x :: xs).drop m)

def groupBySize {α : Type} (n : Nat) (l : List α) : List (List α) :=
  groupBySizeFuel (max 1 n) l.length l

/-! Marker patterns and chunking (src/main.js:1356-1367, 2148-2169). -/
/-- Lower-case an ASCII letter (how the regex `i` flag compares the
characters appearing in these patterns). -/
def asciiLower (c : Char) : Char :=
  if 'A' ≤ c && c ≤ 'Z' then Char.ofNat (c.toNat + 32) else c

/-- Case-insensitive literal-word match; returns the rest of the input. -/
def ciWord : JStr → JStr → Option JStr
  | [], rest => some rest
  | _ :: _, [] => none
  | p :: ps, c :: cs =>
    if asciiLower c = asciiLower p then ciWord ps cs else none

/-- Alternation `(?:w1|w2)` for the two literal alternatives in the day/episode
patterns, first alternative tried first. -/
def altWord (w1 w2 : JStr) (l : JStr) : Option JStr :=
  match ciWord w1 l with
  | some r => some r
  | none => if w2.isPrefixOf l then some (l.drop w2.length) else none

/-- Pattern `\d+\]`: a nonempty digit run followed by a closing bracket. -/
def digitsThenRBracket (l : JStr) : Bool :=
  let ds := l.takeWhile isDigitCh
  !ds.isEmpty &&
    (match l.drop ds.length with
     | ']' :: _ => true
     | _ => false)

/-- The character class `[:\s]`. -/
def isColonWs (c : Char) : Bool := c == ':' || jsWs c

/-- Does `/##\s*\[턴\s*\d+\]/` match at the start of `l`? -/
def turnMarkerAt : JStr → Bool
  | '#' :: '#' :: r =>
    (match r.dropWhile jsWs with
     | '[' :: '턴' :: r3 => digitsThenRBracket (r3.dropWhile jsWs)
     | _ => false)
  | _ => false

/-- Does `/\[📅\s*(?:Day|날짜)[:\s]*\d+\]/i` match at the start of `l`? -/
def dayMarkerAt : JStr → Bool
  | '[' :: '📅' :: r =>
    (match altWord (("Day").data) (("날짜").data) (r.dropWhile jsWs) with
     | some r2 => digitsThenRBracket (r2.dropWhile isColonWs)
     | none => false)
  | _ => false

/-- Does `/\[📖\s*(?:Episode|에피소드)[:\s]*\d+\]/i` match at the start of `l`? -/
def episodeMarkerAt : JStr → Bool
  | '[' :: '📖' :: r =>
    (match altWord (("Episode").data) (("에피소드").data) (r.dropWhile jsWs) with
     | some r2 => digitsThenRBracket (r2.dropWhile isColonWs)
     | none => false)
  | _ => false

/-- The `switch (markerType)` of `chunkByMarker` (src/main.js:2150-2161);
`'turn'` and any unrecognized value select the turn pattern. -/
def markerPattern (markerType : String) : JStr → Bool :=
  if markerType = ("day") then dayMarkerAt
  else if markerType = ("episode") then episodeMarkerAt
  else turnMarkerAt

/-- Model of `chunkByMarker(text, markerType, chunkSize)` (src/main.js:2148-2169):
lookahead-split on the selected marker, drop blank chunks, group by
`chunkSize` and join each group with a blank line. -/
def chunkByMarker (text : JStr) (markerType : String) (chunkSize : Nat) : List JStr :=
  let p := markerPattern markerType
  let rawChunks := (lookaheadSplit p text).filter (fun c => !(jsTrim c).isEmpty)
  (groupBySize chunkSize rawChunks).map (joinSep (("\n\n").data))

/-- The literal lookahead `(?=## \[턴)` used by `runExtraction`
(src/main.js:1357). -/
def runMarkerP (cs : JStr) : Bool := (("## [턴").data).isPrefixOf cs

/-- Step 2 of `runExtraction` (src/main.js:1357): split the accumulated
markdown before each `## [턴` and drop blank blocks. -/
def runExtractionTurnBlocks (text : JStr) : List JStr :=
  (lookaheadSplit runMarkerP text).filter (fun c => !(jsTrim c).isEmpty)

/-- Step 3 of `runExtraction` (src/main.js:1360-1363) before the final
join: the groups of at most `chunkSize` consecutive turn blocks. -/
def runExtractionBatchSlices (chunkSize : Nat) (text : JStr) : List (List JStr) :=
  groupBySize chunkSize (runExtractionTurnBlocks text)

/-- Step 3 of `runExtraction` (src/main.js:1360-1363): the batch texts
passed to the LLM, each group joined with a blank line. -/
def runExtractionBatches (chunkSize : Nat) (text : JStr) : List JStr :=
  (runExtractionBatchSlices chunkSize text).map (joinSep (("\n\n").data))

/-! Batch-size input handling (src/main.js:1333). -/
/-- Model of `Math.max(1, Math.min(100, parseInt(chunkSizeStr, 10) || 10))` (src/main.js:1333): the
`||` falls back to 10 on any falsy parse result, i.e. on `NaN` and on 0. -/
def effectiveChunkSize (s : JStr) : Int :=
  let p : Int :=
    match jsParseInt s with
    | some n => if n = 0 then 10 else n
    | none => 10
  max 1 (min 100 p)

/-! Model of `escapeHtml` (src/main.js:1577-1584). -/
/-- One global single-character `String.prototype.replace` pass. -/
def replAll (target : Char) (repl : JStr) : JStr → JStr
  | [] => []
  | c :: rest => (if c = target then repl else [c]) ++ replAll target repl rest

/-- Model of `escapeHtml(text)`: `none` models a `null`/`undefined` argument (falsy,
handled like the empty string by the `if (!text)` guard). -/
def escapeHtml (t : Option JStr) : JStr :=
  match t with
  | none => []
  | some l =>
    if l.isEmpty then []
    else
      replAll ('"') (("&quot;").data)
        (replAll ('>') (("&gt;").data)
          (replAll ('<') (("&lt;").data)
            (replAll ('&') (("&amp;").data) l)))

/-- The per-character effect of the four chained replacement passes. -/
def escChar (c : Char) : JStr :=
  if c = '&' then ("&amp;").data
  else if c = '<' then ("&lt;").data
  else if c = '>' then ("&gt;").data
  else if c = '"' then ("&quot;").data
  else [c]

def escAll : JStr → JStr
  | [] => []
  | c :: rest => escChar c ++ escAll rest

/-- Every `&` in `out` begins one of the four emitted entities. -/
def entityHeadOk (out : JStr) : Prop :=
  ∀ i, (out.drop i).head? = some ('&') →
    (("&amp;").data).isPrefixOf (out.drop i) = true ∨
    (("&lt;").data).isPrefixOf (out.drop i) = true ∨
    (("&gt;").data).isPrefixOf (out.drop i) = true ∨
    (("&quot;").data).isPrefixOf (out.drop i) = true

/-! The native value model and the Firestore wire format
(src/main.js:1840-1913) -/
mutual
/-- A JS value as handled by the conversion functions.  Numbers are
`Option ℚ` with `none` for `NaN`; `date` is a `Date` identified by its
ISO string. -/
inductive JSValue : Type where
  | str (s : JStr)
  | num (x : Option ℚ)
  | bool (b : Bool)
  | null
  | date (iso : JStr)
  | arr (elems : JSList)
  | obj (fields : JSFields)
/-- A JS array of `JSValue`s. -/
inductive JSList : Type where
  | nil
  | cons (head : JSValue) (tail : JSList)
/-- A JS object: ordered key/value fields. -/
inductive JSFields : Type where
  | nil
  | cons (key : JStr) (val : JSValue) (tail : JSFields)
end

mutual
/-- A Firestore wire value: a single-key tagged object. -/
inductive FireValue : Type where
  | nullValue
  | stringValue (s : JStr)
  | integerValue (s : JStr)
  | doubleValue (x : Option ℚ)
  | booleanValue (b : Bool)
  | timestampValue (s : JStr)
  | arrayValue (values : FireList)
  | mapValue (fields : FireFields)
inductive FireList : Type where
  | nil
  | cons (head : FireValue) (tail : FireList)
inductive FireFields : Type where
  | nil
  | cons (key : JStr) (val : FireValue) (tail : FireFields)
end

/-- JS property read `obj[key]` (first matching key; JS objects cannot
hold duplicate keys). -/
def lookupField : JSFields → JStr → Option JSValue
  | .nil, _ => none
  | .cons k v t, key => if k = key then some v else lookupField t key

/-- JS truthiness of a property access result (`undefined` for a missing
key is falsy). -/
def jsTruthy : Option JSValue → Bool
  | none => false
  | some (.str s) => !s.isEmpty
  | some (.num none) => false
  | some (.num (some q)) => decide (q ≠ 0)
  | some (.bool b) => b
  | some .null => false
  | some (.date _) => true
  | some (.arr _) => true
  | some (.obj _) => true

def serverTsKey : JStr := ("_serverTimestamp").data

mutual
/-- Model of `convertToFirestoreValue(value)` (src/main.js:1840-1871).  `now` is the
ISO string of the current time, consumed by the `_serverTimestamp`
sentinel branch. -/
def convertToFirestoreValue (now : JStr) : JSValue → FireValue
  | .null => .nullValue
  | .str s => .stringValue s
  | .num none => .doubleValue none
  | .num (some q) =>
    if q.den = 1 then .integerValue (jsIntToString q.num) else .doubleValue (some q)
  | .bool b => .booleanValue b
  | .arr l => .arrayValue (convertToFirestoreList now l)
  | .date iso => .timestampValue iso
  | .obj f =>
    if jsTruthy (lookupField f serverTsKey) then .timestampValue now
    else .mapValue (convertToFirestoreFields now f)
def convertToFirestoreList (now : JStr) : JSList → FireList
  | .nil => .nil
  | .cons v t => .cons (convertToFirestoreValue now v) (convertToFirestoreList now t)
def convertToFirestoreFields (now : JStr) : JSFields → FireFields
  | .nil => .nil
  | .cons k v t => .cons k (convertToFirestoreValue now v) (convertToFirestoreFields now t)
end

mutual
/-- Model of `convertFromFirestoreValue(value)` (src/main.js:1895-1913). -/
def convertFromFirestoreValue : FireValue → JSValue
  | .stringValue s => .str s
  | .integerValue s => .num ((jsParseInt s).map (fun i => ((i : ℚ))))
  | .doubleValue x => .num x
  | .booleanValue b => .bool b
  | .nullValue => .null
  | .timestampValue s => .date s
  | .arrayValue l => .arr (convertFromFirestoreList l)
  | .mapValue f => .obj (convertFromFirestoreFields f)
def convertFromFirestoreList : FireList → JSList
  | .nil => .nil
  | .cons v t => .cons (convertFromFirestoreValue v) (convertFromFirestoreList t)
def convertFromFirestoreFields : FireFields → JSFields
  | .nil => .nil
  | .cons k v t => .cons k (convertFromFirestoreValue v) (convertFromFirestoreFields t)
end

mutual
/-- The value domain named by claim C1: strings, safe integers,
non-integral doubles, booleans, null, arrays and nested maps of such
values. -/
def isPlainValue : JSValue → Bool
  | .str _ => true
  | .num none => false
  | .num (some q) =>
    if q.den = 1 then decide (q.num.natAbs ≤ 9007199254740991) else true
  | .bool _ => true
  | .null => true
  | .date _ => false
  | .arr l => isPlainList l
  | .obj f => isPlainFields f
def isPlainList : JSList → Bool
  | .nil => true
  | .cons v t => isPlainValue v && isPlainList t
def isPlainFields : JSFields → Bool
  | .nil => true
  | .cons _ v t => isPlainValue v && isPlainFields t
end

mutual
/-- No map in the value has a truthy `_serverTimestamp` field (such maps
are converted to a server timestamp, not to a `mapValue`). -/
def noServerTs : JSValue → Bool
  | .arr l => noServerTsList l
  | .obj f => !jsTruthy (lookupField f serverTsKey) && noServerTsFields f
  | _ => true
def noServerTsList : JSList → Bool
  | .nil => true
  | .cons v t => noServerTs v && noServerTsList t
def noServerTsFields : JSFields → Bool
  | .nil => true
  | .cons _ v t => noServerTs v && noServerTsFields t
end

def c1WitnessValue : JSValue :=
  JSValue.obj (JSFields.cons (("a").data) (JSValue.num (some 3))
    (JSFields.cons (("b").data)
      (JSValue.arr (JSList.cons (JSValue.str (("x").data))
        (JSList.cons (JSValue.num (some (mkRat 3 2)))
          (JSList.cons JSValue.null JSList.nil))))
      (JSFields.cons (("c").data) (JSValue.bool false) JSFields.nil)))

def isObjValue : JSValue → Bool
  | .obj _ => true
  | _ => false

def c1CounterValue : JSValue :=
  JSValue.obj (JSFields.cons serverTsKey (JSValue.bool true) JSFields.nil)

/-! Model of `firestoreGet` (src/main.js:1795-1809, 1876-1890). -/
/-- Model of `name.split(sep)`. -/
def splitOnChar (sep : Char) : JStr → List JStr
  | [] => [[]]
  | c :: rest =>
    match splitOnChar sep rest with
    | [] => if c = sep then [[], []] else [[c]]
    | h :: t => if c = sep then [] :: h :: t else (c :: h) :: t

/-- Model of `name.split(sep).pop()`. -/
def lastSegment (sep : Char) (l : JStr) : JStr := (splitOnChar sep l).getLastD []

/-- JS property assignment `obj[key] = v`: overwrite in place or append. -/
def setField : JSFields → JStr → JSValue → JSFields
  | .nil, k, v => .cons k v .nil
  | .cons k2 v2 t, k, v =>
    if k2 = k then .cons k2 v t else .cons k2 v2 (setField t k v)

/-- The JSON body of a Firestore document response: optional `name`,
optional `fields`. -/
structure FireDoc where
  name : Option JStr
  fields : Option FireFields

/-- Model of `convertFromFirestoreDoc(doc)` (src/main.js:1876-1890): `null` when the
body is not a fields-bearing document, otherwise the converted fields with
`_id` set to the last path segment of `name`. -/
def convertFromFirestoreDoc (doc : Option FireDoc) : JSValue :=
  match doc with
  | none => JSValue.null
  | some d =>
    match d.fields with
    | none => JSValue.null
    | some fs =>
      let base := convertFromFirestoreFields fs
      match d.name with
      | some nm =>
        JSValue.obj (setField base (("_id").data) (JSValue.str (lastSegment '/' nm)))
      | none => JSValue.obj base

/-- A store HTTP response as observed by `firestoreGet`: status code, the
parsed `error.error?.message` when the error body parses (`none`
otherwise), `statusText`, and the parsed success body. -/
structure FsGetResponse where
  status : Nat
  errorMessage : Option JStr
  statusText : JStr
  body : Option FireDoc

/-- Model of `response.ok`: status in the 200-299 range. -/
def fsOk (r : FsGetResponse) : Bool := 200 ≤ r.status && r.status ≤ 299

/-- Model of `error.error?.message || response.statusText` (falsy message falls
back to the status text). -/
def fsProviderMessage (r : FsGetResponse) : JStr :=
  match r.errorMessage with
  | some m => if m.isEmpty then r.statusText else m
  | none => r.statusText

/-- Model of `firestoreGet` (src/main.js:1795-1809) after the fetch resolved. -/
def firestoreGet (r : FsGetResponse) : Except JStr JSValue :=
  if r.status = 404 then Except.ok JSValue.null
  else if !(fsOk r) then
    Except.error ((("Firestore 조회 실패: ").data) ++ fsProviderMessage r)
  else Except.ok (convertFromFirestoreDoc r.body)

def c5Resp404 : FsGetResponse := ⟨404, none, ("Not Found").data, none⟩

def c5RespErr : FsGetResponse := ⟨500, some (("quota exceeded").data), ("ISE").data, none⟩

def c5RespOk : FsGetResponse :=
  ⟨200, none, ("OK").data,
    some ⟨some (("projects/p/documents/sessions/d1").data),
      some (FireFields.cons (("n").data) (FireValue.integerValue (('7') :: []))
        FireFields.nil)⟩⟩

def c5RespEmptyDoc : FsGetResponse :=
  ⟨200, none, ("OK").data, some ⟨some (("projects/p/documents/sessions/e1").data), none⟩⟩

/-! Extraction loops: traces and failure policy (src/main.js:1371-1414,
2314-2348) -/
/-- Observable events of an extraction run: the i-th LLM call, and an
awaited `setTimeout` pause of `ms` milliseconds. -/
inductive ExtractEv : Type where
  | llmCall (i : Nat)
  | delayMs (ms : Nat)
deriving DecidableEq

def callIdxs (tr : List ExtractEv) : List Nat :=
  tr.filterMap (fun e =>
    match e with
    | .llmCall i => some i
    | .delayMs _ => none)

def delayCount (tr : List ExtractEv) : Nat :=
  tr.countP (fun e =>
    match e with
    | .delayMs _ => true
    | .llmCall _ => false)

/-- Event trace of the sequential batch loop of `runExtraction`
(src/main.js:1371-1385): one LLM call per batch, a 2000 ms pause after
every batch except the last, and an abort on the first failed call.
`call i` is the outcome of the LLM call on batch `i`; the loop runs
batches `i, i+1, …` with `rem` batches remaining out of `total`. -/
def runExtractionTrace (call : Nat → Except JStr JStr) (total : Nat) :
    Nat → Nat → List ExtractEv
  | _, 0 => []
  | i, rem + 1 =>
    match call i with
    | .error _ => [ExtractEv.llmCall i]
    | .ok _ =>
      ExtractEv.llmCall i ::
        ((if i < total - 1 then [ExtractEv.delayMs 2000] else []) ++
          runExtractionTrace call total (i + 1) rem)

/-- Accumulated results of the same loop (`accumulatedResults`): the first
failure aborts the run with that error. -/
def runExtractionResult (call : Nat → Except JStr JStr) :
    Nat → Nat → Except JStr (List JStr)
  | _, 0 => Except.ok []
  | i, rem + 1 =>
    match call i with
    | .error e => Except.error e
    | .ok r => (runExtractionResult call (i + 1) rem).map (fun rs => r :: rs)

/-- Step 5 of `runExtraction` (src/main.js:1388): drop blank results and
join with `",\n"`. -/
def runExtractionJoin (rs : List JStr) : JStr :=
  joinSep ((",\n").data) (rs.filter (fun r2 => !(jsTrim r2).isEmpty))

/-- What `runExtraction` persists (src/main.js:1393-1414): the joined
result, only when the whole loop succeeded and a store is configured; a
failed run reaches the `catch` block and persists nothing. -/
def runExtractionSaved (call : Nat → Except JStr JStr) (total : Nat)
    (dbConfigured : Bool) : Option JStr :=
  match runExtractionResult call 0 total with
  | .ok rs => if dbConfigured then some (runExtractionJoin rs) else none
  | .error _ => none

/-- A per-chunk record of `batchExtract` (src/main.js:2332-2334):
`{index, success: true, data}` or `{index, success: false, error}`. -/
inductive BatchEntry : Type where
  | success (index : Nat) (data : JSValue)
  | failure (index : Nat) (error : JStr)

def entryIndex : BatchEntry → Nat
  | .success i _ => i
  | .failure i _ => i

/-- The try/catch around one chunk of `batchExtract`. -/
def mkEntry (f : JStr → Except JStr JSValue) (i : Nat) (c : JStr) : BatchEntry :=
  match f c with
  | .ok d => BatchEntry.success i d
  | .error e => BatchEntry.failure i e

/-- The `switch (extractionLevel)` of `batchExtract` (src/main.js:2321-2331):
`'micro'` and any unrecognized value select the micro extractor. -/
def pickExtractor (microFn mesoFn macroFn : JStr → Except JStr JSValue)
    (lvl : String) : JStr → Except JStr JSValue :=
  if lvl = ("meso") then mesoFn
  else if lvl = ("macro") then macroFn
  else microFn

/-- Event trace of the `batchExtract` loop (src/main.js:2318-2345): one
call per chunk and a 500 ms pause after every chunk except the last,
regardless of per-chunk success (the try/catch swallows failures). -/
def batchExtractTraceGo (total : Nat) : Nat → Nat → List ExtractEv
  | _, 0 => []
  | i, rem + 1 =>
    ExtractEv.llmCall i ::
      ((if i < total - 1 then [ExtractEv.delayMs 500] else []) ++
        batchExtractTraceGo total (i + 1) rem)

/-- The `results` array built by the `batchExtract` loop. -/
def batchExtractEntriesGo (f : JStr → Except JStr JSValue) :
    Nat → List JStr → List BatchEntry
  | _, [] => []
  | i, c :: rest => mkEntry f i c :: batchExtractEntriesGo f (i + 1) rest

/-- Model of `batchExtract(fullText, markerType, extractionLevel)`
(src/main.js:2314-2348): chunk with `chunkByMarker` (chunk size 1), then
one entry per chunk. -/
def batchExtractEntries (microFn mesoFn macroFn : JStr → Except JStr JSValue)
    (fullText : JStr) (markerType lvl : String) : List BatchEntry :=
  batchExtractEntriesGo (pickExtractor microFn mesoFn macroFn lvl) 0
    (chunkByMarker fullText markerType 1)

/-- The event trace of a `batchExtract` run. -/
def batchExtractTrace (fullText : JStr) (markerType : String) : List ExtractEv :=
  batchExtractTraceGo (chunkByMarker fullText markerType 1).length 0
    (chunkByMarker fullText markerType 1).length

/-- The pacing pattern claimed by the spec: calls `i, i+1, …` with a fixed
`d`-millisecond delay after each call except the last. -/
def expectedTraceGo (d total : Nat) : Nat → Nat → List ExtractEv
  | _, 0 => []
  | i, rem + 1 =>
    ExtractEv.llmCall i ::
      ((if i < total - 1 then [ExtractEv.delayMs d] else []) ++
        expectedTraceGo d total (i + 1) rem)

def expectedTrace (d total : Nat) : List ExtractEv := expectedTraceGo d total 0 total

/-! The fenced-code-block extraction of the text-mode `callLLM`
(src/main.js:1311-1316): `resultText.match(/```(?:json)?\s*([\s\S]*?)\s*```/)` -/
/-- Consume an optional literal `json` tag. -/
def stripJsonTag (l : JStr) : JStr :=
  if (("json").data).isPrefixOf l then l.drop 4 else l

/-- Text up to (excluding) the first triple-backtick, `none` when there is
none: the closing-fence search of the lazy group `([\s\S]*?)`. -/
def takeUntilClose : JStr → Option JStr
  | [] => none
  | c :: rest =>
    if (("```").data).isPrefixOf (c :: rest) then some []
    else (takeUntilClose rest).map (fun l => c :: l)

/-- The regex engine's scan for `/```(?:json)?\s*([\s\S]*?)\s*```/`: at
each position, an opening ``` followed by an optional `json` tag matches
when a closing ``` exists later; otherwise the scan advances one
character.  Returns the matched interior (after the tag, before the first
closing fence); the surrounding `\s*` of the pattern only shave
whitespace that the subsequent `.trim()` removes anyway. -/
def scanFence : JStr → Option JStr
  | [] => none
  | c :: rest =>
    if (("```").data).isPrefixOf (c :: rest) then
      match takeUntilClose (stripJsonTag (rest.drop 2)) with
      | some inner => some inner
      | none => scanFence rest
    else scanFence rest

/-- The text-mode `callLLM` result extraction (src/main.js:1311-1316):
the trimmed first fenced interior if the regex matches, else the whole
trimmed text. -/
def callLLMResultText (resultText : JStr) : JStr :=
  match scanFence resultText with
  | some inner => jsTrim inner
  | none => jsTrim resultText

/-- Modelled from the claim's words: the position of the first ```. -/
def firstFenceIdx : JStr → Option Nat
  | [] => none
  | c :: rest =>
    if (("```").data).isPrefixOf (c :: rest) then some 0
    else (firstFenceIdx rest).map (fun i => i + 1)

/-- Modelled from the claim's words (with the amendment): the interior of
the first fenced code block — from the first ``` to the next ``` after
it — minus a leading literal `json` tag. -/
def specFenceInterior (cs : JStr) : Option JStr :=
  match firstFenceIdx cs with
  | none => none
  | some i =>
    match firstFenceIdx (cs.drop (i + 3)) with
    | none => none
    | some j => some (stripJsonTag ((cs.drop (i + 3)).take j))

/-- Modelled from the claim exactly as stated: the raw interior of the
first fence, `json` tag included. -/
def specFenceInteriorRaw (cs : JStr) : Option JStr :=
  match firstFenceIdx cs with
  | none => none
  | some i =>
    match firstFenceIdx (cs.drop (i + 3)) with
    | none => none
    | some j => some ((cs.drop (i + 3)).take j)

/-- Modelled from the claim's words: trimmed first-fence interior when a
fence exists, whole trimmed text otherwise. -/
def specCallLLMText (cs : JStr) : JStr :=
  match specFenceInterior cs with
  | some inner => jsTrim inner
  | none => jsTrim cs

theorem jsTrim_eq_nil_iff (l : JStr) : jsTrim l = [] ↔ ∀ c ∈ l, jsWs c = true := by
  unfold jsTrim
  rw [List.reverse_eq_nil_iff, List.dropWhile_eq_nil_iff]
  constructor
  · intro h c hc
    by_cases hfront : c ∈ l.dropWhile jsWs
    · exact h c (List.mem_reverse.mpr hfront)
    · have hsplit := List.takeWhile_append_dropWhile (p := jsWs) (l := l)
      rw [← hsplit] at hc
      rcases List.mem_append.mp hc with htake | hdrop
      · exact List.mem_takeWhile_imp htake
      · exact absurd hdrop hfront
  · intro h c hc
    exact h c ((List.dropWhile_sublist (p := jsWs) (l := l)).mem (List.mem_reverse.mp hc))

theorem digitCh_spec (d : Nat) (hd : d < 10) :
    digitVal (digitCh d) = d ∧ isDigitCh (digitCh d) = true ∧
    jsWs (digitCh d) = false ∧ digitCh d ≠ '-' ∧ digitCh d ≠ '+' := by
  interval_cases d <;> exact ⟨by decide, by decide, by decide, by decide, by decide⟩

theorem takeWhile_all {α : Type} {p : α → Bool} {l : List α}
    (h : ∀ a ∈ l, p a = true) : l.takeWhile p = l := by
  induction l with
  | nil => rfl
  | cons a l ih =>
    rw [List.takeWhile_cons, h a (by simp)]
    exact congrArg _ (ih fun x hx => h x (by simp [hx]))

theorem natToChars_all_digits (m : Nat) :
    ∀ c ∈ natToChars m, ∃ d, d < 10 ∧ c = digitCh d := by
  intro c hc
  unfold natToChars at hc
  by_cases hm : m = 0
  · simp only [hm] at hc
    norm_num at hc
    exact ⟨0, by norm_num, hc⟩
  · simp only [if_neg hm, List.mem_reverse, List.mem_map] at hc
    rcases hc with ⟨d, hd, rfl⟩
    exact ⟨d, Nat.digits_lt_base (by norm_num) hd, rfl⟩

theorem foldr_digitCh (ds : List Nat) (h : ∀ d ∈ ds, d < 10) :
    List.foldr (fun d a => a * 10 + digitVal (digitCh d)) 0 ds = Nat.ofDigits 10 ds := by
  induction ds with
  | nil => simp [Nat.ofDigits]
  | cons d ds ih =>
    have hd := (digitCh_spec d (h d (by simp))).1
    simp only [List.foldr, hd, Nat.ofDigits_cons,
      ih (fun x hx => h x (by simp [hx]))]
    ring

theorem parseDigitsNat_natToChars (m : Nat) : parseDigitsNat (natToChars m) = some m := by
  by_cases hm : m = 0
  · subst hm; decide
  · have hdig : ∀ c ∈ natToChars m, isDigitCh c = true := by
      intro c hc
      rcases natToChars_all_digits m c hc with ⟨d, hd, rfl⟩
      exact (digitCh_spec d hd).2.1
    have hne : natToChars m ≠ [] := by
      unfold natToChars
      simp [hm, Nat.digits_ne_nil_iff_ne_zero]
    unfold parseDigitsNat
    rw [takeWhile_all hdig]
    rw [if_neg (by simpa [List.isEmpty_iff] using hne)]
    congr 1
    unfold natToChars
    rw [if_neg hm, List.foldl_reverse, List.foldr_map]
    exact (foldr_digitCh _ (fun d hd => Nat.digits_lt_base (by norm_num) hd)).trans
      (Nat.ofDigits_digits 10 m)

theorem jsParseInt_jsIntToString (n : Int) : jsParseInt (jsIntToString n) = some n := by
  by_cases hneg : n < 0
  · unfold jsIntToString
    rw [if_pos hneg]
    unfold jsParseInt
    rw [List.dropWhile_cons, if_neg (by decide)]
    rw [jsParseIntCore, if_pos rfl, parseDigitsNat_natToChars]
    exact congrArg some (show -Int.ofNat n.natAbs = n by rw [Int.ofNat_eq_natCast]; omega)
  · unfold jsIntToString
    rw [if_neg hneg]
    rcases hcons : natToChars n.toNat with _ | ⟨c, r⟩
    · exfalso
      have := parseDigitsNat_natToChars n.toNat
      rw [hcons] at this
      simp [parseDigitsNat] at this
    · have hc : ∃ d, d < 10 ∧ c = digitCh d :=
        natToChars_all_digits n.toNat c (by rw [hcons]; simp)
      rcases hc with ⟨d, hd, rfl⟩
      have hspec := digitCh_spec d hd
      unfold jsParseInt
      rw [List.dropWhile_cons, if_neg (by simp [hspec.2.2.1])]
      rw [jsParseIntCore, if_neg hspec.2.2.2.1, if_neg hspec.2.2.2.2, ← hcons,
        parseDigitsNat_natToChars]
      exact congrArg some (show Int.ofNat n.toNat = n by rw [Int.ofNat_eq_natCast]; omega)

theorem splitAux_length (p : List Char → Bool) :
    ∀ (cs acc : List Char), acc ≠ [] →
    (splitAux p cs acc).length = countMatchP p cs + 1 := by
  intro cs
  induction cs with
  | nil => intro acc _; simp [splitAux, countMatchP]
  | cons c rest ih =>
    intro acc h
    rw [splitAux]
    by_cases hp : p (c :: rest) = true
    · rw [if_pos (by simp [h, hp]), List.length_cons, ih [c] (by simp),
        countMatchP, if_pos hp]
      omega
    · rw [if_neg (by simp [hp]), ih (c :: acc) (by simp),
        countMatchP, if_neg hp]
      omega

theorem splitAux_nonws (p : List Char → Bool)
    (hp : ∀ cs, p cs = true → ∃ c t, cs = c :: t ∧ jsWs c = false) :
    ∀ (cs acc : List Char), (∃ a ∈ acc, jsWs a = false) →
    ∀ piece ∈ splitAux p cs acc, ∃ c ∈ piece, jsWs c = false := by
  intro cs
  induction cs with
  | nil =>
    intro acc hacc piece hpiece
    rw [splitAux, List.mem_singleton] at hpiece
    subst hpiece
    rcases hacc with ⟨a, ha, haws⟩
    exact ⟨a, List.mem_reverse.mpr ha, haws⟩
  | cons c rest ih =>
    intro acc hacc piece hpiece
    rw [splitAux] at hpiece
    by_cases hpc : p (c :: rest) = true
    · have hne : acc ≠ [] := by
        rcases hacc with ⟨a, ha, _⟩
        exact List.ne_nil_of_mem ha
      rw [if_pos (by simp [hne, hpc])] at hpiece
      rcases List.mem_cons.mp hpiece with h1 | h2
      · subst h1
        rcases hacc with ⟨a, ha, haws⟩
        exact ⟨a, List.mem_reverse.mpr ha, haws⟩
      · have hcws : jsWs c = false := by
          rcases hp (c :: rest) hpc with ⟨c2, t2, heq, hws⟩
          cases heq
          exact hws
        exact ih [c] ⟨c, by simp, hcws⟩ piece h2
    · rw [if_neg (by simp [hpc])] at hpiece
      rcases hacc with ⟨a, ha, haws⟩
      exact ih (c :: acc) ⟨a, by simp [ha], haws⟩ piece hpiece

theorem splitAux_no_match (p : List Char → Bool) :
    ∀ (cs acc : List Char), (∀ n, p (cs.drop n) = false) →
    splitAux p cs acc = [acc.reverse ++ cs] := by
  intro cs
  induction cs with
  | nil => intro acc _; simp [splitAux]
  | cons c rest ih =>
    intro acc h
    have h0 : p (c :: rest) = false := by
      have := h 0
      rwa [List.drop_zero] at this
    have hrec : ∀ n, p (rest.drop n) = false := by
      intro n
      have := h (n + 1)
      rwa [List.drop_succ_cons] at this
    rw [splitAux, if_neg (by simp [h0]), ih (c :: acc) hrec]
    simp

theorem groupBySizeFuel_nil {α : Type} (m fuel : Nat) :
    groupBySizeFuel m fuel ([] : List α) = [] := by
  cases fuel <;> rfl

theorem groupBySizeFuel_congr {α : Type} (m : Nat) (hm : 1 ≤ m) :
    ∀ (f1 : Nat) (l : List α) (f2 : Nat), l.length ≤ f1 → l.length ≤ f2 →
    groupBySizeFuel m f1 l = groupBySizeFuel m f2 l := by
  intro f1
  induction f1 with
  | zero =>
    intro l f2 h1 _
    have : l = [] := List.eq_nil_of_length_eq_zero (by omega)
    subst this
    rw [groupBySizeFuel_nil, groupBySizeFuel_nil]
  | succ f1 ih =>
    intro l f2 h1 h2
    match l, f2 with
    | [], _ => rw [groupBySizeFuel_nil, groupBySizeFuel_nil]
    | x :: xs, 0 => simp at h2
    | x :: xs, f2 + 1 =>
      rw [groupBySizeFuel, groupBySizeFuel]
      have hlen : ((x :: xs).drop m).length = xs.length + 1 - m := by simp
      exact congrArg _ (ih ((x :: xs).drop m) f2 (by simp at h1 ⊢; omega)
        (by simp at h2 ⊢; omega))

theorem groupBySize_nil {α : Type} (n : Nat) : groupBySize n ([] : List α) = [] := rfl

theorem groupBySize_cons {α : Type} (n : Nat) (x : α) (xs : List α) :
    groupBySize n (x :: xs) =
      ((x :: xs).take (max 1 n)) :: groupBySize n ((x :: xs).drop (max 1 n)) := by
  show groupBySizeFuel (max 1 n) (xs.length + 1) (x :: xs) = _
  rw [groupBySizeFuel]
  unfold groupBySize
  exact congrArg _ (groupBySizeFuel_congr (max 1 n) (by omega) xs.length _ _
    (by simp) (by omega))

theorem groupBySize_flatten {α : Type} (n : Nat) :
    ∀ l : List α, (groupBySize n l).flatten = l
  | [] => by rw [groupBySize_nil]; rfl
  | x :: xs => by
    rw [groupBySize_cons, List.flatten_cons,
      groupBySize_flatten n ((x :: xs).drop (max 1 n)), List.take_append_drop]
  termination_by l => l.length
  decreasing_by simp

theorem groupBySize_length {α : Type} (n : Nat) :
    ∀ l : List α, l ≠ [] →
    (groupBySize n l).length = (l.length + max 1 n - 1) / max 1 n
  | [] => by intro h; exact absurd rfl h
  | x :: xs => by
    intro _
    rw [groupBySize_cons, List.length_cons]
    by_cases hle : (x :: xs).length ≤ max 1 n
    · have h1 : 1 ≤ (x :: xs).length := by simp
      have hdiv : ((x :: xs).length + max 1 n - 1) / max 1 n = 1 :=
        Nat.div_eq_of_lt_le (by omega) (by omega)
      rw [List.drop_eq_nil_of_le hle, groupBySize_nil, List.length_nil, hdiv]
    · have hlen : ((x :: xs).drop (max 1 n)).length = (x :: xs).length - max 1 n := by
        simp
      have hne : (x :: xs).drop (max 1 n) ≠ [] := by
        have hpos : 0 < ((x :: xs).drop (max 1 n)).length := by
          rw [hlen]
          omega
        exact List.length_pos.mp hpos
      rw [groupBySize_length n ((x :: xs).drop (max 1 n)) hne, hlen]
      have hm : 0 < max 1 n := by omega
      have hsplit : (x :: xs).length + max 1 n - 1 =
          ((x :: xs).length - max 1 n + max 1 n - 1) + max 1 n := by omega
      rw [hsplit, Nat.add_div_right _ hm]
  termination_by l => l.length
  decreasing_by simp

theorem runExtractionTurnBlocks_spec (text : JStr) (hstart : runMarkerP text = true) :
    (runExtractionTurnBlocks text).length = countMatchP runMarkerP text ∧
    runExtractionTurnBlocks text ≠ [] := by
  have hp : ∀ cs, runMarkerP cs = true → ∃ c t, cs = c :: t ∧ jsWs c = false := by
    intro cs hcs
    rcases List.isPrefixOf_iff_prefix.mp hcs with ⟨t2, ht2⟩
    exact ⟨'#', (('#') :: (' ') :: ('[') :: ('턴') :: []) ++ t2, by rw [← ht2]; rfl, by decide⟩
  obtain ⟨rest, hrest⟩ : ∃ rest, text = '#' :: rest := by
    rcases List.isPrefixOf_iff_prefix.mp hstart with ⟨t, ht⟩
    exact ⟨_, by rw [← ht]; rfl⟩
  subst hrest
  have hsplit : lookaheadSplit runMarkerP ('#' :: rest) = splitAux runMarkerP rest [('#')] := by
    unfold lookaheadSplit
    rw [splitAux, if_neg (by simp)]
  have hlen := splitAux_length runMarkerP rest [('#')] (by simp)
  have hkeep : ∀ piece ∈ splitAux runMarkerP rest [('#')],
      (fun c => !(jsTrim c).isEmpty) piece = true := by
    intro piece hpiece
    rcases splitAux_nonws runMarkerP hp rest [('#')] ⟨'#', by simp, by decide⟩ piece hpiece
      with ⟨c, hc, hcws⟩
    have hne2 : jsTrim piece ≠ [] := by
      rw [Ne, jsTrim_eq_nil_iff]
      intro hall
      exact absurd (hall c hc) (by simp [hcws])
    cases h3 : (jsTrim piece).isEmpty with
    | false => simp [h3]
    | true => exact absurd (List.isEmpty_iff.mp h3) hne2
  unfold runExtractionTurnBlocks
  rw [hsplit, List.filter_eq_self.mpr hkeep]
  constructor
  · rw [hlen, countMatchP, if_pos hstart]
    omega
  · intro hnil
    rw [hnil] at hlen
    simp at hlen

/-- C2 (amended — the input must begin with a turn-marker occurrence;
otherwise the non-blank preamble becomes an extra chunk): on text that
starts with `## [턴` and contains `k` occurrences of it, with batch size
`n ∈ [1,100]`, the chunk-then-group step of `runExtraction` yields exactly
`⌈k/n⌉` batches whose concatenation is exactly the chunk sequence (each
batch in original order; every chunk exactly once, no gaps, no
duplicates). -/
theorem runExtraction_batching (text : JStr) (n : Nat)
    (hstart : runMarkerP text = true) (h1 : 1 ≤ n) (_hn : n ≤ 100) :
    (runExtractionTurnBlocks text).length = countMatchP runMarkerP text ∧
    (runExtractionBatchSlices n text).length =
      (countMatchP runMarkerP text + n - 1) / n ∧
    (runExtractionBatchSlices n text).flatten = runExtractionTurnBlocks text ∧
    (runExtractionBatches n text).length = (runExtractionBatchSlices n text).length := by
  obtain ⟨hlen, hne⟩ := runExtractionTurnBlocks_spec text hstart
  have hmax : max 1 n = n := Nat.max_eq_right h1
  refine ⟨hlen, ?_, ?_, ?_⟩
  · unfold runExtractionBatchSlices
    rw [groupBySize_length n _ hne, hmax, hlen]
  · exact groupBySize_flatten n _
  · unfold runExtractionBatches
    rw [List.length_map]

theorem runExtraction_batching_witness :
    runMarkerP (("## [턴 1]a## [턴 2]b## [턴 3]c").data) = true ∧
    countMatchP runMarkerP (("## [턴 1]a## [턴 2]b## [턴 3]c").data) = 3 ∧
    (runExtractionBatchSlices 2 (("## [턴 1]a## [턴 2]b## [턴 3]c").data)).length = 2 ∧
    (runExtractionBatchSlices 2 (("## [턴 1]a## [턴 2]b## [턴 3]c").data)).flatten =
      runExtractionTurnBlocks (("## [턴 1]a## [턴 2]b## [턴 3]c").data) := by
  have h := runExtraction_batching (("## [턴 1]a## [턴 2]b## [턴 3]c").data) 2
    (by decide) (by decide) (by decide)
  refine ⟨by decide, by decide, ?_, h.2.2.1⟩
  rw [h.2.1]
  decide

/-- C2 as stated is false: text with a non-blank preamble before its only
turn marker has 1 marker but yields 2 batches at batch size 1, not
`⌈1/1⌉ = 1`. -/
theorem runExtraction_batching_counterexample :
    countMatchP runMarkerP (('x') :: ("## [턴 1]").data) = 1 ∧
    (runExtractionBatchSlices 1 (('x') :: ("## [턴 1]").data)).length ≠ 1 := by
  decide

/-- C3 (amended — the chunk is the input text itself, not trimmed): on
non-blank text with no occurrence of the selected marker pattern,
`chunkByMarker` returns exactly one chunk, equal to the input text. -/
theorem chunkByMarker_no_marker (text : JStr) (mt : String)
    (hno : ∀ i, markerPattern mt (text.drop i) = false)
    (hnb : (jsTrim text).isEmpty = false) :
    chunkByMarker text mt 1 = [text] := by
  have hdef : chunkByMarker text mt 1 =
      (groupBySize 1 ((splitAux (markerPattern mt) text []).filter
        (fun c => !(jsTrim c).isEmpty))).map (joinSep (("\n\n").data)) := rfl
  rw [hdef, splitAux_no_match (markerPattern mt) text [] hno]
  have h0 : ([] : List Char).reverse ++ text = text := by simp
  rw [h0, List.filter_cons, if_pos (by simp [hnb]), List.filter_nil, groupBySize_cons]
  simp [joinSep, groupBySize_nil]

theorem chunkByMarker_no_marker_witness :
    chunkByMarker (('h') :: ('i') :: []) ("turn") 1 = [('h') :: ('i') :: []] := by
  apply chunkByMarker_no_marker
  · intro i
    match i with
    | 0 => decide
    | 1 => decide
    | i + 2 =>
      rw [List.drop_eq_nil_of_le (by simp)]
      decide
  · decide

/-- C3 as stated is false: on the markerless, non-blank input `" a "`,
`chunkByMarker` returns the chunk `" a "` itself, not the trimmed `"a"`. -/
theorem chunkByMarker_counterexample :
    (∀ i, markerPattern ("turn") (((' ') :: ('a') :: (' ') :: []).drop i) = false) ∧
    (jsTrim ((' ') :: ('a') :: (' ') :: [])).isEmpty = false ∧
    chunkByMarker ((' ') :: ('a') :: (' ') :: []) ("turn") 1 ≠
      [jsTrim ((' ') :: ('a') :: (' ') :: [])] := by
  refine ⟨?_, by decide, by decide⟩
  intro i
  match i with
  | 0 => decide
  | 1 => decide
  | 2 => decide
  | i + 3 =>
    rw [List.drop_eq_nil_of_le (by simp)]
    decide

/-- C7 (amended — the default 10 is also used when the string parses to 0,
because `parseInt(s) || 10` treats 0 as falsy): the effective batch size is
10 when the string does not parse (or parses to 0), and otherwise the
parsed value clamped to [1,100]. -/
theorem effectiveChunkSize_spec (s : JStr) :
    (jsParseInt s = none → effectiveChunkSize s = 10) ∧
    (jsParseInt s = some 0 → effectiveChunkSize s = 10) ∧
    (∀ n : Int, jsParseInt s = some n → n ≠ 0 →
      effectiveChunkSize s = max 1 (min 100 n) ∧
      (n < 1 → effectiveChunkSize s = 1) ∧
      (100 < n → effectiveChunkSize s = 100)) := by
  refine ⟨?_, ?_, ?_⟩
  · intro h
    unfold effectiveChunkSize
    rw [h]
    rfl
  · intro h
    unfold effectiveChunkSize
    rw [h]
    rfl
  · intro n h hne
    have hd : effectiveChunkSize s = max 1 (min 100 n) := by
      unfold effectiveChunkSize
      rw [h]
      show max 1 (min 100 (if n = 0 then 10 else n)) = _
      rw [if_neg hne]
    exact ⟨hd, fun h1 => by rw [hd]; omega, fun h2 => by rw [hd]; omega⟩

theorem effectiveChunkSize_witness :
    effectiveChunkSize (('5') :: ('0') :: ('0') :: []) = 100 ∧
    effectiveChunkSize (('-') :: ('7') :: []) = 1 ∧
    effectiveChunkSize (('a') :: []) = 10 := by
  refine ⟨?_, ?_, ?_⟩
  · exact ((effectiveChunkSize_spec (('5') :: ('0') :: ('0') :: [])).2.2 500
      (by decide) (by decide)).2.2 (by decide)
  · exact ((effectiveChunkSize_spec (('-') :: ('7') :: [])).2.2 (-7)
      (by decide) (by decide)).2.1 (by decide)
  · exact (effectiveChunkSize_spec (('a') :: [])).1 (by decide)

/-- C7 as stated is false: the input `"0"` parses to the number 0, whose
clamp to [1,100] would be 1, but the code's `|| 10` default makes the
effective batch size 10. -/
theorem effectiveChunkSize_counterexample :
    jsParseInt (('0') :: []) = some 0 ∧
    effectiveChunkSize (('0') :: []) = 10 ∧
    max 1 (min 100 (0 : Int)) = 1 := by
  refine ⟨by decide, by decide, by decide⟩

theorem replAll_append (t : Char) (r : JStr) :
    ∀ a b : JStr, replAll t r (a ++ b) = replAll t r a ++ replAll t r b := by
  intro a b
  induction a with
  | nil => simp [replAll]
  | cons c rest ih =>
    show (if c = t then r else [c]) ++ replAll t r (rest ++ b) =
      ((if c = t then r else [c]) ++ replAll t r rest) ++ replAll t r b
    rw [ih, List.append_assoc]

theorem escapeHtml_chain (l : JStr) :
    replAll ('"') (("&quot;").data)
      (replAll ('>') (("&gt;").data)
        (replAll ('<') (("&lt;").data)
          (replAll ('&') (("&amp;").data) l))) = escAll l := by
  induction l with
  | nil => rfl
  | cons c rest ih =>
    rw [show replAll ('&') (("&amp;").data) (c :: rest) =
      (if c = '&' then ("&amp;").data else [c]) ++ replAll ('&') (("&amp;").data) rest
      from rfl]
    rw [replAll_append, replAll_append, replAll_append, ih]
    rw [show escAll (c :: rest) = escChar c ++ escAll rest from rfl]
    congr 1
    by_cases h1 : c = '&'
    · subst h1; decide
    · rw [if_neg h1]
      by_cases h2 : c = '<'
      · subst h2; decide
      · by_cases h3 : c = '>'
        · subst h3; decide
        · by_cases h4 : c = '"'
          · subst h4; decide
          · have e1 : replAll ('<') (("&lt;").data) [c] = [c] := by
              show (if c = '<' then _ else [c]) ++ replAll _ _ [] = [c]
              rw [if_neg h2]
              rfl
            have e2 : replAll ('>') (("&gt;").data) [c] = [c] := by
              show (if c = '>' then _ else [c]) ++ replAll _ _ [] = [c]
              rw [if_neg h3]
              rfl
            have e3 : replAll ('"') (("&quot;").data) [c] = [c] := by
              show (if c = '"' then _ else [c]) ++ replAll _ _ [] = [c]
              rw [if_neg h4]
              rfl
            rw [e1, e2, e3]
            unfold escChar
            rw [if_neg h1, if_neg h2, if_neg h3, if_neg h4]

theorem escapeHtml_some (l : JStr) : escapeHtml (some l) = escAll l := by
  cases l with
  | nil => rfl
  | cons c rest =>
    rw [show escapeHtml (some (c :: rest)) =
      replAll ('"') (("&quot;").data)
        (replAll ('>') (("&gt;").data)
          (replAll ('<') (("&lt;").data)
            (replAll ('&') (("&amp;").data) (c :: rest)))) from rfl]
    exact escapeHtml_chain (c :: rest)

theorem isPrefixOf_append_self (a b : List Char) : a.isPrefixOf (a ++ b) = true := by
  rw [List.isPrefixOf_iff_prefix]
  exact List.prefix_append a b

theorem escAll_mem : ∀ l : JStr, ∀ x ∈ escAll l, x ≠ '<' ∧ x ≠ '>' ∧ x ≠ '"' := by
  intro l
  induction l with
  | nil => intro x hx; simp [escAll] at hx
  | cons c rest ih =>
    intro x hx
    rw [show escAll (c :: rest) = escChar c ++ escAll rest from rfl] at hx
    rcases List.mem_append.mp hx with hx1 | hx2
    · unfold escChar at hx1
      by_cases h1 : c = '&'
      · rw [if_pos h1] at hx1
        exact (show ∀ y ∈ (("&amp;").data), y ≠ '<' ∧ y ≠ '>' ∧ y ≠ '"' by decide) x hx1
      · rw [if_neg h1] at hx1
        by_cases h2 : c = '<'
        · rw [if_pos h2] at hx1
          exact (show ∀ y ∈ (("&lt;").data), y ≠ '<' ∧ y ≠ '>' ∧ y ≠ '"' by decide) x hx1
        · rw [if_neg h2] at hx1
          by_cases h3 : c = '>'
          · rw [if_pos h3] at hx1
            exact (show ∀ y ∈ (("&gt;").data), y ≠ '<' ∧ y ≠ '>' ∧ y ≠ '"' by decide) x hx1
          · rw [if_neg h3] at hx1
            by_cases h4 : c = '"'
            · rw [if_pos h4] at hx1
              exact (show ∀ y ∈ (("&quot;").data), y ≠ '<' ∧ y ≠ '>' ∧ y ≠ '"' by decide)
                x hx1
            · rw [if_neg h4, List.mem_singleton] at hx1
              subst hx1
              exact ⟨h2, h3, h4⟩
    · exact ih x hx2

theorem entityHeadOk_append_entity (b out : JStr)
    (hb : b = ("&amp;").data ∨ b = ("&lt;").data ∨ b = ("&gt;").data ∨ b = ("&quot;").data)
    (hout : entityHeadOk out) : entityHeadOk (b ++ out) := by
  rcases hb with rfl | rfl | rfl | rfl
  · intro i h
    match i with
    | 0 => exact Or.inl (isPrefixOf_append_self _ _)
    | 1 => exact absurd (show (some ('a') : Option Char) = some ('&') from h) (by decide)
    | 2 => exact absurd (show (some ('m') : Option Char) = some ('&') from h) (by decide)
    | 3 => exact absurd (show (some ('p') : Option Char) = some ('&') from h) (by decide)
    | 4 => exact absurd (show (some (';') : Option Char) = some ('&') from h) (by decide)
    | i + 5 => exact hout i h
  · intro i h
    match i with
    | 0 => exact Or.inr (Or.inl (isPrefixOf_append_self _ _))
    | 1 => exact absurd (show (some ('l') : Option Char) = some ('&') from h) (by decide)
    | 2 => exact absurd (show (some ('t') : Option Char) = some ('&') from h) (by decide)
    | 3 => exact absurd (show (some (';') : Option Char) = some ('&') from h) (by decide)
    | i + 4 => exact hout i h
  · intro i h
    match i with
    | 0 => exact Or.inr (Or.inr (Or.inl (isPrefixOf_append_self _ _)))
    | 1 => exact absurd (show (some ('g') : Option Char) = some ('&') from h) (by decide)
    | 2 => exact absurd (show (some ('t') : Option Char) = some ('&') from h) (by decide)
    | 3 => exact absurd (show (some (';') : Option Char) = some ('&') from h) (by decide)
    | i + 4 => exact hout i h
  · intro i h
    match i with
    | 0 => exact Or.inr (Or.inr (Or.inr (isPrefixOf_append_self _ _)))
    | 1 => exact absurd (show (some ('q') : Option Char) = some ('&') from h) (by decide)
    | 2 => exact absurd (show (some ('u') : Option Char) = some ('&') from h) (by decide)
    | 3 => exact absurd (show (some ('o') : Option Char) = some ('&') from h) (by decide)
    | 4 => exact absurd (show (some ('t') : Option Char) = some ('&') from h) (by decide)
    | 5 => exact absurd (show (some (';') : Option Char) = some ('&') from h) (by decide)
    | i + 6 => exact hout i h

theorem entityHeadOk_cons_nonamp (c : Char) (hc : c ≠ '&') (out : JStr)
    (hout : entityHeadOk out) : entityHeadOk (c :: out) := by
  intro i h
  match i with
  | 0 =>
    exfalso
    rw [List.drop_zero, List.head?_cons] at h
    simp only [Option.some.injEq] at h
    exact hc h
  | i + 1 => exact hout i h

theorem escAll_entityHeadOk : ∀ l : JStr, entityHeadOk (escAll l) := by
  intro l
  induction l with
  | nil =>
    intro i h
    rw [show escAll [] = [] from rfl, List.drop_nil] at h
    simp at h
  | cons c rest ih =>
    show entityHeadOk (escChar c ++ escAll rest)
    by_cases h1 : c = '&'
    · subst h1
      exact entityHeadOk_append_entity _ _ (Or.inl (by decide)) ih
    · by_cases h2 : c = '<'
      · subst h2
        exact entityHeadOk_append_entity _ _ (Or.inr (Or.inl (by decide))) ih
      · by_cases h3 : c = '>'
        · subst h3
          exact entityHeadOk_append_entity _ _ (Or.inr (Or.inr (Or.inl (by decide)))) ih
        · by_cases h4 : c = '"'
          · subst h4
            exact entityHeadOk_append_entity _ _ (Or.inr (Or.inr (Or.inr (by decide)))) ih
          · rw [show escChar c = [c] from by
              unfold escChar
              rw [if_neg h1, if_neg h2, if_neg h3, if_neg h4]]
            exact entityHeadOk_cons_nonamp c h1 _ ih

/-- C9: for every input, `escapeHtml`'s output contains no raw `<`, `>` or
`"`, and every `&` in the output starts one of the emitted entities
(`&amp;`, `&lt;`, `&gt;`, `&quot;`); a `null`/`undefined` or empty input
yields the empty string. -/
theorem escapeHtml_spec (t : Option JStr) :
    escapeHtml none = [] ∧ escapeHtml (some []) = [] ∧
    (∀ x ∈ escapeHtml t, x ≠ '<' ∧ x ≠ '>' ∧ x ≠ '"') ∧
    entityHeadOk (escapeHtml t) := by
  refine ⟨rfl, rfl, ?_, ?_⟩
  · cases t with
    | none => intro x hx; simp [escapeHtml] at hx
    | some l =>
      rw [escapeHtml_some]
      exact escAll_mem l
  · cases t with
    | none =>
      intro i h
      simp [escapeHtml] at h
    | some l =>
      rw [escapeHtml_some]
      exact escAll_entityHeadOk l

theorem escapeHtml_spec_witness :
    escapeHtml (some (('a') :: ('<') :: ('&') :: [])) = ("a&lt;&amp;").data ∧
    ('<') ∉ escapeHtml (some (('a') :: ('<') :: ('&') :: [])) := by
  constructor
  · decide
  · intro hmem
    exact ((escapeHtml_spec (some (('a') :: ('<') :: ('&') :: []))).2.2.1 '<' hmem).1 rfl

mutual
theorem convertFrom_convertTo_value (now : JStr) :
    ∀ v : JSValue, isPlainValue v = true → noServerTs v = true →
    convertFromFirestoreValue (convertToFirestoreValue now v) = v
  | .str _, _, _ => rfl
  | .num none, _, _ => rfl
  | .num (some q), _, _ => by
    by_cases hden : q.den = 1
    · show convertFromFirestoreValue
        (if q.den = 1 then FireValue.integerValue (jsIntToString q.num)
         else FireValue.doubleValue (some q)) = JSValue.num (some q)
      rw [if_pos hden]
      show JSValue.num ((jsParseInt (jsIntToString q.num)).map (fun i => ((i : ℚ)))) = _
      rw [jsParseInt_jsIntToString]
      show JSValue.num (some ((q.num : ℚ))) = JSValue.num (some q)
      rw [Rat.coe_int_num_of_den_eq_one hden]
    · show convertFromFirestoreValue
        (if q.den = 1 then FireValue.integerValue (jsIntToString q.num)
         else FireValue.doubleValue (some q)) = JSValue.num (some q)
      rw [if_neg hden]
      rfl
  | .bool _, _, _ => rfl
  | .null, _, _ => rfl
  | .date _, _, _ => rfl
  | .arr l, hp, hs => by
    show JSValue.arr (convertFromFirestoreList (convertToFirestoreList now l)) = JSValue.arr l
    rw [convertFrom_convertTo_list now l hp hs]
  | .obj f, hp, hs => by
    have hsplit : (!jsTruthy (lookupField f serverTsKey) && noServerTsFields f) = true := hs
    rw [Bool.and_eq_true] at hsplit
    have hts : jsTruthy (lookupField f serverTsKey) = false := by
      have h1 := hsplit.1
      simp only [Bool.not_eq_eq_eq_not, Bool.not_true] at h1
      exact h1
    show convertFromFirestoreValue
      (if jsTruthy (lookupField f serverTsKey) then FireValue.timestampValue now
       else FireValue.mapValue (convertToFirestoreFields now f)) = JSValue.obj f
    rw [if_neg (by rw [hts]; exact Bool.false_ne_true)]
    show JSValue.obj (convertFromFirestoreFields (convertToFirestoreFields now f)) =
      JSValue.obj f
    rw [convertFrom_convertTo_fields now f hp hsplit.2]

theorem convertFrom_convertTo_list (now : JStr) :
    ∀ l : JSList, isPlainList l = true → noServerTsList l = true →
    convertFromFirestoreList (convertToFirestoreList now l) = l
  | .nil, _, _ => rfl
  | .cons v t, hp, hs => by
    have hp2 : (isPlainValue v && isPlainList t) = true := hp
    have hs2 : (noServerTs v && noServerTsList t) = true := hs
    rw [Bool.and_eq_true] at hp2 hs2
    show JSList.cons (convertFromFirestoreValue (convertToFirestoreValue now v))
      (convertFromFirestoreList (convertToFirestoreList now t)) = JSList.cons v t
    rw [convertFrom_convertTo_value now v hp2.1 hs2.1,
      convertFrom_convertTo_list now t hp2.2 hs2.2]

theorem convertFrom_convertTo_fields (now : JStr) :
    ∀ f : JSFields, isPlainFields f = true → noServerTsFields f = true →
    convertFromFirestoreFields (convertToFirestoreFields now f) = f
  | .nil, _, _ => rfl
  | .cons k v t, hp, hs => by
    have hp2 : (isPlainValue v && isPlainFields t) = true := hp
    have hs2 : (noServerTs v && noServerTsFields t) = true := hs
    rw [Bool.and_eq_true] at hp2 hs2
    show JSFields.cons k (convertFromFirestoreValue (convertToFirestoreValue now v))
      (convertFromFirestoreFields (convertToFirestoreFields now t)) = JSFields.cons k v t
    rw [convertFrom_convertTo_value now v hp2.1 hs2.1,
      convertFrom_convertTo_fields now t hp2.2 hs2.2]
end

/-- C1 (amended — maps carrying a truthy `_serverTimestamp` field are
excluded: the code converts them to a server `timestampValue`, which reads
back as a `Date`): for every value built from strings, safe integers,
non-integral doubles, booleans, null, arrays and nested maps of such
values in which no map has a truthy `_serverTimestamp` field,
`convertFromFirestoreValue (convertToFirestoreValue v) = v`; both
conversions are total functions. -/
theorem convertFirestore_roundtrip (now : JStr) (v : JSValue)
    (hplain : isPlainValue v = true) (hts : noServerTs v = true) :
    convertFromFirestoreValue (convertToFirestoreValue now v) = v :=
  convertFrom_convertTo_value now v hplain hts

theorem convertFirestore_roundtrip_witness :
    isPlainValue c1WitnessValue = true ∧ noServerTs c1WitnessValue = true ∧
    convertFromFirestoreValue
      (convertToFirestoreValue (("2024-01-01T00:00:00.000Z").data) c1WitnessValue) =
      c1WitnessValue :=
  ⟨by decide, by decide,
    convertFirestore_roundtrip (("2024-01-01T00:00:00.000Z").data) c1WitnessValue
      (by decide) (by decide)⟩

/-- C1 as stated is false: `{_serverTimestamp: true}` is a map built only
from the claim's value types (a map holding a boolean), yet
`convertToFirestoreValue` turns it into a `timestampValue` and
`convertFromFirestoreValue` reads that back as a `Date`, not the map. -/
theorem convertFirestore_roundtrip_counterexample :
    isPlainValue c1CounterValue = true ∧
    convertFromFirestoreValue
      (convertToFirestoreValue (("2024-01-01T00:00:00.000Z").data) c1CounterValue) ≠
      c1CounterValue := by
  refine ⟨by decide, ?_⟩
  intro h
  exact Bool.false_ne_true (congrArg isObjValue h)

/-- C5 (amended — "null exactly when 404" weakens to: null on 404, and on
any other non-success an error carrying the provider message; a success
response returns the converted document, which is itself null when the
body has no document fields): the full case analysis of `firestoreGet`. -/
theorem firestoreGet_spec (r : FsGetResponse) :
    (r.status = 404 → firestoreGet r = Except.ok JSValue.null) ∧
    (r.status ≠ 404 → fsOk r = false →
      firestoreGet r =
        Except.error ((("Firestore 조회 실패: ").data) ++ fsProviderMessage r)) ∧
    (fsOk r = true → firestoreGet r = Except.ok (convertFromFirestoreDoc r.body)) := by
  refine ⟨?_, ?_, ?_⟩
  · intro h
    unfold firestoreGet
    rw [if_pos h]
  · intro h1 h2
    unfold firestoreGet
    rw [if_neg h1, if_pos (by rw [h2]; rfl)]
  · intro h
    have h404 : r.status ≠ 404 := by
      intro hh
      unfold fsOk at h
      rw [hh] at h
      simp at h
    unfold firestoreGet
    rw [if_neg h404, if_neg (by rw [h]; decide)]

theorem firestoreGet_spec_witness :
    firestoreGet c5Resp404 = Except.ok JSValue.null ∧
    firestoreGet c5RespErr =
      Except.error ((("Firestore 조회 실패: ").data) ++ (("quota exceeded").data)) ∧
    firestoreGet c5RespOk = Except.ok (convertFromFirestoreDoc c5RespOk.body) :=
  ⟨(firestoreGet_spec c5Resp404).1 rfl,
   (firestoreGet_spec c5RespErr).2.1 (by decide) (by decide),
   (firestoreGet_spec c5RespOk).2.2 (by decide)⟩

/-- C5's "exactly when not-found" is false: a 200 response whose body is a
document without a `fields` member (an empty document) also makes
`firestoreGet` return null, not only a 404. -/
theorem firestoreGet_counterexample :
    c5RespEmptyDoc.status ≠ 404 ∧ fsOk c5RespEmptyDoc = true ∧
    firestoreGet c5RespEmptyDoc = Except.ok JSValue.null := by
  refine ⟨by decide, by decide, rfl⟩

theorem delayCount_cons_call (i : Nat) (tr : List ExtractEv) :
    delayCount (ExtractEv.llmCall i :: tr) = delayCount tr := by
  simp [delayCount, List.countP_cons]

theorem delayCount_cons_delay (ms : Nat) (tr : List ExtractEv) :
    delayCount (ExtractEv.delayMs ms :: tr) = delayCount tr + 1 := by
  simp [delayCount, List.countP_cons]

theorem getLast?_cons_ne {α : Type} (a : α) (l : List α) (h : l ≠ []) :
    (a :: l).getLast? = l.getLast? := by
  cases l with
  | nil => exact absurd rfl h
  | cons b t => exact List.getLast?_cons_cons

theorem expectedTraceGo_ne_nil (d total i rem : Nat) :
    expectedTraceGo d total i (rem + 1) ≠ [] := by
  rw [expectedTraceGo]
  exact List.cons_ne_nil _ _

theorem expectedTraceGo_delayCount (d total : Nat) :
    ∀ rem i, i + rem = total →
    delayCount (expectedTraceGo d total i rem) = rem - 1 := by
  intro rem
  induction rem with
  | zero => intro i _; rfl
  | succ rem ih =>
    intro i h
    rw [expectedTraceGo]
    by_cases hlt : i < total - 1
    · have hrem : 1 ≤ rem := by omega
      rw [if_pos hlt]
      show delayCount (ExtractEv.llmCall i :: ExtractEv.delayMs d ::
        expectedTraceGo d total (i + 1) rem) = rem + 1 - 1
      rw [delayCount_cons_call, delayCount_cons_delay, ih (i + 1) (by omega)]
      omega
    · have hrem : rem = 0 := by omega
      subst hrem
      rw [if_neg hlt]
      rfl

theorem expectedTraceGo_getLast (d total : Nat) :
    ∀ rem i, i + (rem + 1) = total →
    (expectedTraceGo d total i (rem + 1)).getLast? =
      some (ExtractEv.llmCall (total - 1)) := by
  intro rem
  induction rem with
  | zero =>
    intro i h
    rw [expectedTraceGo, if_neg (by omega)]
    show (ExtractEv.llmCall i :: ([] ++ expectedTraceGo d total (i + 1) 0)).getLast? = _
    rw [show expectedTraceGo d total (i + 1) 0 = [] from rfl]
    show (ExtractEv.llmCall i :: []).getLast? = _
    rw [show i = total - 1 from by omega]
    rfl
  | succ rem ih =>
    intro i h
    rw [expectedTraceGo, if_pos (by omega)]
    show (ExtractEv.llmCall i :: ExtractEv.delayMs d ::
      expectedTraceGo d total (i + 1) (rem + 1)).getLast? = _
    rw [getLast?_cons_ne _ _ (List.cons_ne_nil _ _)]
    rw [getLast?_cons_ne _ _ (expectedTraceGo_ne_nil d total (i + 1) rem)]
    exact ih (i + 1) (by omega)

theorem runExtractionTrace_all_ok (call : Nat → Except JStr JStr) (total : Nat) :
    ∀ rem i, (∀ m, i ≤ m → m < i + rem → ∃ r, call m = Except.ok r) →
    runExtractionTrace call total i rem = expectedTraceGo 2000 total i rem := by
  intro rem
  induction rem with
  | zero => intro i _; rfl
  | succ rem ih =>
    intro i h
    rcases h i (le_refl i) (by omega) with ⟨r, hr⟩
    rw [runExtractionTrace, hr, expectedTraceGo]
    rw [ih (i + 1) (fun m hm1 hm2 => h m (by omega) (by omega))]

theorem batchExtractTraceGo_eq (total : Nat) :
    ∀ rem i, batchExtractTraceGo total i rem = expectedTraceGo 500 total i rem := by
  intro rem
  induction rem with
  | zero => intro i; rfl
  | succ rem ih =>
    intro i
    rw [batchExtractTraceGo, expectedTraceGo, ih (i + 1)]

theorem runExtractionTrace_abort (call : Nat → Except JStr JStr) (total : Nat) :
    ∀ rem i j e, i ≤ j → j < i + rem →
    (∀ m, i ≤ m → m < j → ∃ r, call m = Except.ok r) →
    call j = Except.error e →
    callIdxs (runExtractionTrace call total i rem) = List.range' i (j + 1 - i) ∧
    runExtractionResult call i rem = Except.error e := by
  intro rem
  induction rem with
  | zero => intro i j e h1 h2 _ _; omega
  | succ rem ih =>
    intro i j e hij hjlt hprev herr
    by_cases hji : j = i
    · subst hji
      rw [runExtractionTrace, herr, runExtractionResult, herr]
      constructor
      · show [j] = List.range' j (j + 1 - j)
        rw [show j + 1 - j = 1 from by omega, List.range'_one]
      · rfl
    · rcases hprev i (le_refl i) (by omega) with ⟨r, hr⟩
      rw [runExtractionTrace, hr, runExtractionResult, hr]
      have hrec := ih (i + 1) j e (by omega) (by omega)
        (fun m hm1 hm2 => hprev m (by omega) hm2) herr
      constructor
      · show callIdxs (ExtractEv.llmCall i ::
          ((if i < total - 1 then [ExtractEv.delayMs 2000] else []) ++
            runExtractionTrace call total (i + 1) rem)) = _
        have hci : ∀ tr, callIdxs (ExtractEv.llmCall i ::
            ((if i < total - 1 then [ExtractEv.delayMs 2000] else []) ++ tr)) =
            i :: callIdxs tr := by
          intro tr
          by_cases hd : i < total - 1
          · rw [if_pos hd]
            rfl
          · rw [if_neg hd]
            rfl
        rw [hci, hrec.1, show j + 1 - i = (j - i) + 1 from by omega, List.range'_succ,
          show i + 1 = i + 1 from rfl, show j + 1 - (i + 1) = j - i from by omega]
      · rw [hrec.2]
        rfl

theorem batchExtractEntriesGo_length (f : JStr → Except JStr JSValue) :
    ∀ (cs : List JStr) (i : Nat), (batchExtractEntriesGo f i cs).length = cs.length := by
  intro cs
  induction cs with
  | nil => intro i; rfl
  | cons c rest ih =>
    intro i
    show (batchExtractEntriesGo f (i + 1) rest).length + 1 = rest.length + 1
    rw [ih (i + 1)]

theorem batchExtractEntriesGo_get (f : JStr → Except JStr JSValue) :
    ∀ (cs : List JStr) (i k : Nat),
    (batchExtractEntriesGo f i cs).get? k = (cs.get? k).map (fun c => mkEntry f (i + k) c) := by
  intro cs
  induction cs with
  | nil => intro i k; rfl
  | cons c rest ih =>
    intro i k
    match k with
    | 0 => rfl
    | k + 1 =>
      show (batchExtractEntriesGo f (i + 1) rest).get? k =
        (rest.get? k).map (fun c2 => mkEntry f (i + (k + 1)) c2)
      rw [ih (i + 1) k, show (i + 1) + k = i + (k + 1) from by omega]

theorem entryIndex_mkEntry (f : JStr → Except JStr JSValue) (i : Nat) (c : JStr) :
    entryIndex (mkEntry f i c) = i := by
  unfold mkEntry
  cases f c <;> rfl

/-- C6: if batch `j` is the first to fail in the interactive
`runExtraction` loop, exactly batches `0..j` are attempted (none after
`j`), the run ends with that error, and nothing is persisted; whereas the
programmatic `batchExtract` records `{index: k, success: false, error}`
for a failing chunk `k` and still produces one entry per chunk (it
continues past failures to the end). -/
theorem extraction_failure_divergence
    (call : Nat → Except JStr JStr) (b j : Nat) (e : JStr) (db : Bool)
    (hj : j < b) (hprev : ∀ m, m < j → ∃ r, call m = Except.ok r)
    (herr : call j = Except.error e)
    (microFn mesoFn macroFn : JStr → Except JStr JSValue)
    (fullText : JStr) (markerType lvl : String) :
    callIdxs (runExtractionTrace call b 0 b) = List.range (j + 1) ∧
    runExtractionResult call 0 b = Except.error e ∧
    runExtractionSaved call b db = none ∧
    (∀ k c e2, (chunkByMarker fullText markerType 1).get? k = some c →
      pickExtractor microFn mesoFn macroFn lvl c = Except.error e2 →
      (batchExtractEntries microFn mesoFn macroFn fullText markerType lvl).get? k =
        some (BatchEntry.failure k e2)) ∧
    (batchExtractEntries microFn mesoFn macroFn fullText markerType lvl).length =
      (chunkByMarker fullText markerType 1).length := by
  have habort := runExtractionTrace_abort call b b 0 j e (by omega) (by omega)
    (fun m _ hm2 => hprev m hm2) herr
  refine ⟨?_, habort.2, ?_, ?_, ?_⟩
  · rw [habort.1, show j + 1 - 0 = j + 1 from by omega, List.range_eq_range']
  · unfold runExtractionSaved
    rw [habort.2]
  · intro k c e2 hk hfail
    unfold batchExtractEntries
    rw [batchExtractEntriesGo_get, hk]
    show some (mkEntry (pickExtractor microFn mesoFn macroFn lvl) (0 + k) c) = _
    rw [show (0 : Nat) + k = k from by omega]
    unfold mkEntry
    rw [hfail]
  · unfold batchExtractEntries
    rw [batchExtractEntriesGo_length]

theorem extraction_failure_divergence_witness :
    callIdxs (runExtractionTrace
      (fun i => if i = 1 then Except.error (("boom").data) else Except.ok (("r").data))
      3 0 3) = [0, 1] ∧
    runExtractionSaved
      (fun i => if i = 1 then Except.error (("boom").data) else Except.ok (("r").data))
      3 true = none ∧
    (batchExtractEntries (fun _ => Except.error (("bad").data))
      (fun _ => Except.error (("bad").data)) (fun _ => Except.error (("bad").data))
      (("x").data) ("turn") ("micro")).length =
      (chunkByMarker (("x").data) ("turn") 1).length := by
  have h := extraction_failure_divergence
    (fun i => if i = 1 then Except.error (("boom").data) else Except.ok (("r").data))
    3 1 (("boom").data) true (by omega)
    (by
      intro m hm
      have hm0 : m = 0 := by omega
      subst hm0
      exact ⟨(("r").data), rfl⟩)
    rfl
    (fun _ => Except.error (("bad").data)) (fun _ => Except.error (("bad").data))
    (fun _ => Except.error (("bad").data)) (("x").data) ("turn") ("micro")
  refine ⟨?_, h.2.2.1, h.2.2.2.2⟩
  rw [h.1]
  decide

/-- C8: in a fully successful interactive run with `b` batches the trace
is exactly call, delay, call, …, call — a fixed 2000 ms delay after every
call except the last, so `b - 1` delays and a call as the final event; the
`batchExtract` trace has the same shape unconditionally with a 500 ms
delay. -/
theorem extraction_pacing
    (call : Nat → Except JStr JStr) (b : Nat)
    (hok : ∀ m, m < b → ∃ r, call m = Except.ok r)
    (fullText : JStr) (markerType : String) :
    runExtractionTrace call b 0 b = expectedTrace 2000 b ∧
    delayCount (expectedTrace 2000 b) = b - 1 ∧
    (0 < b → (expectedTrace 2000 b).getLast? = some (ExtractEv.llmCall (b - 1))) ∧
    batchExtractTrace fullText markerType =
      expectedTrace 500 (chunkByMarker fullText markerType 1).length ∧
    delayCount (expectedTrace 500 (chunkByMarker fullText markerType 1).length) =
      (chunkByMarker fullText markerType 1).length - 1 ∧
    (0 < (chunkByMarker fullText markerType 1).length →
      (expectedTrace 500 (chunkByMarker fullText markerType 1).length).getLast? =
        some (ExtractEv.llmCall ((chunkByMarker fullText markerType 1).length - 1))) := by
  refine ⟨?_, ?_, ?_, ?_, ?_, ?_⟩
  · exact runExtractionTrace_all_ok call b b 0 (fun m _ hm2 => hok m (by omega))
  · exact expectedTraceGo_delayCount 2000 b b 0 (by omega)
  · intro hb
    rcases Nat.exists_eq_add_of_lt hb with ⟨rem, hrem⟩
    unfold expectedTrace
    rw [show b = rem + 1 from by omega]
    exact expectedTraceGo_getLast 2000 (rem + 1) rem 0 (by omega)
  · exact batchExtractTraceGo_eq _ _ 0
  · exact expectedTraceGo_delayCount 500 _ _ 0 (by omega)
  · intro hb
    rcases Nat.exists_eq_add_of_lt hb with ⟨rem, hrem⟩
    unfold expectedTrace
    rw [show (chunkByMarker fullText markerType 1).length = rem + 1 from by omega]
    exact expectedTraceGo_getLast 500 (rem + 1) rem 0 (by omega)

theorem extraction_pacing_witness :
    runExtractionTrace (fun _ => Except.ok (("r").data)) 3 0 3 =
      [ExtractEv.llmCall 0, ExtractEv.delayMs 2000, ExtractEv.llmCall 1,
       ExtractEv.delayMs 2000, ExtractEv.llmCall 2] ∧
    delayCount (expectedTrace 2000 3) = 2 ∧
    batchExtractTrace (("x").data) ("turn") = [ExtractEv.llmCall 0] := by
  have h := extraction_pacing (fun _ => Except.ok (("r").data)) 3
    (fun m _ => ⟨(("r").data), rfl⟩) (("x").data) ("turn")
  refine ⟨?_, ?_, ?_⟩
  · rw [h.1]
    decide
  · rw [h.2.1]
  · rw [h.2.2.2.1]
    decide

/-- C10: `batchExtract` returns exactly one entry per `chunkByMarker`
chunk, in chunk order; the entry at position `k` carries index `k` and is
the success entry for the selected extractor's result on chunk `k` when
that call succeeds, the failure entry otherwise — no chunk is skipped or
duplicated regardless of which chunks fail. -/
theorem batchExtract_entries_spec
    (microFn mesoFn macroFn : JStr → Except JStr JSValue)
    (fullText : JStr) (markerType lvl : String) :
    (batchExtractEntries microFn mesoFn macroFn fullText markerType lvl).length =
      (chunkByMarker fullText markerType 1).length ∧
    (∀ k, (batchExtractEntries microFn mesoFn macroFn fullText markerType lvl).get? k =
      ((chunkByMarker fullText markerType 1).get? k).map
        (fun c => mkEntry (pickExtractor microFn mesoFn macroFn lvl) k c)) ∧
    (∀ k ent,
      (batchExtractEntries microFn mesoFn macroFn fullText markerType lvl).get? k =
        some ent → entryIndex ent = k) := by
  refine ⟨?_, ?_, ?_⟩
  · unfold batchExtractEntries
    rw [batchExtractEntriesGo_length]
  · intro k
    unfold batchExtractEntries
    rw [batchExtractEntriesGo_get]
    rw [show (0 : Nat) + k = k from by omega]
  · intro k ent hent
    unfold batchExtractEntries at hent
    rw [batchExtractEntriesGo_get] at hent
    rcases hc : (chunkByMarker fullText markerType 1).get? k with _ | c
    · rw [hc] at hent
      exact Option.noConfusion hent
    · rw [hc] at hent
      simp only [Option.map_some', Option.some.injEq] at hent
      rw [← hent, show (0 : Nat) + k = k from by omega, entryIndex_mkEntry]

theorem batchExtract_entries_spec_witness :
    (batchExtractEntries
      (fun c => if c = ("## [턴 1]a").data then Except.error (("bad").data)
                else Except.ok JSValue.null)
      (fun _ => Except.ok JSValue.null) (fun _ => Except.ok JSValue.null)
      (("## [턴 1]a## [턴 2]b").data) ("turn") ("micro")).length = 2 ∧
    (batchExtractEntries
      (fun c => if c = ("## [턴 1]a").data then Except.error (("bad").data)
                else Except.ok JSValue.null)
      (fun _ => Except.ok JSValue.null) (fun _ => Except.ok JSValue.null)
      (("## [턴 1]a## [턴 2]b").data) ("turn") ("micro")).get? 1 =
      some (BatchEntry.success 1 JSValue.null) := by
  have h := batchExtract_entries_spec
    (fun c => if c = ("## [턴 1]a").data then Except.error (("bad").data)
              else Except.ok JSValue.null)
    (fun _ => Except.ok JSValue.null) (fun _ => Except.ok JSValue.null)
    (("## [턴 1]a## [턴 2]b").data) ("turn") ("micro")
  constructor
  · rw [h.1]
    decide
  · rw [h.2.1 1]
    rfl

theorem takeUntilClose_eq :
    ∀ l : JStr, takeUntilClose l = (firstFenceIdx l).map (fun k => l.take k) := by
  intro l
  induction l with
  | nil => rfl
  | cons c rest ih =>
    by_cases h : (("```").data).isPrefixOf (c :: rest) = true
    · rw [takeUntilClose, if_pos h, firstFenceIdx, if_pos h]
      rfl
    · rw [takeUntilClose, if_neg h, firstFenceIdx, if_neg h, ih]
      cases firstFenceIdx rest with
      | none => rfl
      | some k =>
        simp only [Option.map_some']
        rw [List.take_succ_cons]

theorem firstFenceIdx_none_iff (l : JStr) :
    firstFenceIdx l = none ↔ ∀ n, (("```").data).isPrefixOf (l.drop n) = false := by
  induction l with
  | nil =>
    constructor
    · intro _ n
      rw [List.drop_nil]
      rfl
    · intro _
      rfl
  | cons c rest ih =>
    by_cases h : (("```").data).isPrefixOf (c :: rest) = true
    · rw [firstFenceIdx, if_pos h]
      constructor
      · intro hcontra
        exact Option.noConfusion hcontra
      · intro hall
        have h0 := hall 0
        rw [List.drop_zero] at h0
        rw [h] at h0
        exact Bool.noConfusion h0
    · rw [firstFenceIdx, if_neg h]
      constructor
      · intro hmap n
        have hnone : firstFenceIdx rest = none := by
          cases hf : firstFenceIdx rest with
          | none => rfl
          | some k =>
            rw [hf] at hmap
            exact Option.noConfusion hmap
        match n with
        | 0 =>
          rw [List.drop_zero]
          cases h2 : (("```").data).isPrefixOf (c :: rest) with
          | false => rfl
          | true => exact absurd h2 h
        | n + 1 =>
          rw [List.drop_succ_cons]
          exact (ih.mp hnone) n
      · intro hall
        have : firstFenceIdx rest = none := by
          apply ih.mpr
          intro n
          have := hall (n + 1)
          rwa [List.drop_succ_cons] at this
        rw [this]
        rfl

theorem firstFenceIdx_some_tb :
    ∀ (l : JStr) (k : Nat), firstFenceIdx l = some k →
    (("```").data).isPrefixOf (l.drop k) = true := by
  intro l
  induction l with
  | nil => intro k hk; exact Option.noConfusion hk
  | cons c rest ih =>
    intro k hk
    by_cases h : (("```").data).isPrefixOf (c :: rest) = true
    · rw [firstFenceIdx, if_pos h] at hk
      have hk0 : k = 0 := (Option.some.inj hk).symm
      subst hk0
      rw [List.drop_zero]
      exact h
    · rw [firstFenceIdx, if_neg h] at hk
      cases hf : firstFenceIdx rest with
      | none =>
        rw [hf] at hk
        exact Option.noConfusion hk
      | some k2 =>
        rw [hf] at hk
        simp only [Option.map_some', Option.some.injEq] at hk
        subst hk
        rw [List.drop_succ_cons]
        exact ih k2 hf

theorem stripJsonTag_append (x : JStr) :
    stripJsonTag ((("json").data) ++ x) = x := by
  unfold stripJsonTag
  rw [if_pos (isPrefixOf_append_self _ _)]
  rfl

theorem scanFence_eq_spec : ∀ cs : JStr, scanFence cs = specFenceInterior cs := by
  intro cs
  induction cs with
  | nil => rfl
  | cons c rest ih =>
    by_cases htb : (("```").data).isPrefixOf (c :: rest) = true
    · rcases List.isPrefixOf_iff_prefix.mp htb with ⟨t, ht⟩
      have hrest : rest = (("``").data) ++ t := by
        have h2 := congrArg List.tail ht
        exact h2.symm
      subst hrest
      rw [scanFence, if_pos htb]
      have hdrop2 : ((("``").data) ++ t).drop 2 = t := rfl
      rw [hdrop2]
      have hspec0 : firstFenceIdx (c :: ((("``").data) ++ t)) = some 0 := by
        rw [firstFenceIdx, if_pos htb]
      have hspecEq : specFenceInterior (c :: ((("``").data) ++ t)) =
          (match firstFenceIdx t with
           | none => none
           | some j => some (stripJsonTag (t.take j))) := by
        unfold specFenceInterior
        rw [hspec0]
        rfl
      rw [hspecEq]
      by_cases hj : (("json").data).isPrefixOf t = true
      · rcases List.isPrefixOf_iff_prefix.mp hj with ⟨u, hu⟩
        have ht4 : t = (("json").data) ++ u := hu.symm
        subst ht4
        have hstrip : stripJsonTag ((("json").data) ++ u) = u := stripJsonTag_append u
        rw [hstrip, takeUntilClose_eq]
        have hshift : firstFenceIdx ((("json").data) ++ u) =
            (firstFenceIdx u).map (fun i => i + 4) := by
          show ((((firstFenceIdx u).map (fun i => i + 1)).map (fun i => i + 1)).map
            (fun i => i + 1)).map (fun i => i + 1) = (firstFenceIdx u).map (fun i => i + 4)
          cases firstFenceIdx u with
          | none => rfl
          | some k => rfl
        rw [hshift]
        cases hfk : firstFenceIdx u with
        | none =>
          show scanFence ((("``").data) ++ ((("json").data) ++ u)) = none
          rw [ih]
          have hnone : firstFenceIdx ((("``").data) ++ ((("json").data) ++ u)) = none := by
            apply (firstFenceIdx_none_iff _).mpr
            intro n
            match n with
            | 0 => rfl
            | 1 => rfl
            | 2 => rfl
            | 3 => rfl
            | 4 => rfl
            | 5 => rfl
            | n + 6 =>
              show (("```").data).isPrefixOf (u.drop n) = false
              exact (firstFenceIdx_none_iff u).mp hfk n
          unfold specFenceInterior
          rw [hnone]
        | some k =>
          show some (u.take k) =
            some (stripJsonTag ((((("json").data) ++ u)).take (k + 4)))
          have htake : ((("json").data) ++ u).take (k + 4) = (("json").data) ++ u.take k :=
            rfl
          rw [htake, stripJsonTag_append]
      · have hstrip : stripJsonTag t = t := by
          unfold stripJsonTag
          rw [if_neg hj]
        rw [hstrip, takeUntilClose_eq]
        cases hfk : firstFenceIdx t with
        | none =>
          show scanFence ((("``").data) ++ t) = none
          rw [ih]
          unfold specFenceInterior
          cases hfr : firstFenceIdx ((("``").data) ++ t) with
          | none => rfl
          | some jr =>
            show (match firstFenceIdx (((("``").data) ++ t).drop (jr + 3)) with
              | none => none
              | some j =>
                some (stripJsonTag ((((("``").data) ++ t).drop (jr + 3)).take j))) = none
            cases hfr2 : firstFenceIdx (((("``").data) ++ t).drop (jr + 3)) with
            | none => rfl
            | some k2 =>
              exfalso
              have htrip := firstFenceIdx_some_tb _ _ hfr2
              rw [List.drop_drop] at htrip
              obtain ⟨m, hm⟩ : ∃ m, jr + 3 + k2 = m + 2 := ⟨jr + 1 + k2, by omega⟩
              rw [hm] at htrip
              have hred : ((("``").data) ++ t).drop (m + 2) = t.drop m := rfl
              rw [hred] at htrip
              have hfalse := (firstFenceIdx_none_iff t).mp hfk m
              rw [hfalse] at htrip
              exact Bool.noConfusion htrip
        | some k =>
          have hnp : stripJsonTag (t.take k) = t.take k := by
            unfold stripJsonTag
            rw [if_neg (by
              intro hcontra
              apply hj
              rw [List.isPrefixOf_iff_prefix] at hcontra ⊢
              exact hcontra.trans (List.take_prefix k t))]
          show some (t.take k) = some (stripJsonTag (t.take k))
          rw [hnp]
    · rw [scanFence, if_neg htb, ih]
      unfold specFenceInterior
      rw [firstFenceIdx, if_neg htb]
      cases hf : firstFenceIdx rest with
      | none => rfl
      | some i =>
        simp only [Option.map_some']
        rfl

/-- C4 (amended — the interior of a fence is taken after an optional
literal `json` tag following the opening backticks, which the regex
`(?:json)?` consumes): for every response text, the text-mode `callLLM`
extraction returns the trimmed interior of the first fenced code block
(first ``` to the next ``` after it, minus a leading `json` tag) when
such a fence exists, and the whole trimmed text otherwise. -/
theorem callLLM_fence_spec (resultText : JStr) :
    callLLMResultText resultText = specCallLLMText resultText := by
  unfold callLLMResultText specCallLLMText
  rw [scanFence_eq_spec]

theorem callLLM_fence_spec_witness :
    callLLMResultText (("a ```  hi there ``` b").data) = ("hi there").data ∧
    callLLMResultText (("no fence ``` here").data) = ("no fence ``` here").data := by
  constructor
  · rw [callLLM_fence_spec]
    decide
  · rw [callLLM_fence_spec]
    decide

/-- C4 as stated is false on `json`-tagged fences: in "```json1```" the
interior of the first fence is "json1", but `callLLM` strips the `json`
tag and returns "1". -/
theorem callLLM_fence_counterexample :
    specFenceInteriorRaw (("```json1```").data) = some (("json1").data) ∧
    callLLMResultText (("```json1```").data) ≠ jsTrim (("json1").data) ∧
    callLLMResultText (("```json1```").data) = ('1') :: [] := by
  refine ⟨by decide, by decide, by decide⟩
